import Mathlib

/-!
Verification of the muiv-newsgen acquisition/normalization core.

Shallow embedding of:
- `src/data/kudago_download.py` (timestamp normalization, date-range picking,
  JSON fetching, pagination, plan/news rendering, pair building);
- `src/data/http_client.py` (anti-bot classification, fetch with fallback);
- `src/data/sitemap_muiv.py` (news-namespace filter, XML sniff, sitemap crawl).

Effectful calls (HTTP requests, XML/JSON parsing by external libraries,
local-time formatting) are passed in as explicit oracle parameters; all
control flow and data manipulation is translated directly from the source.
-/

namespace NewsGen

/-! ### Timestamp normalization (`kudago_download.safe_int`, `normalize_unix_ts`) -/

/-- A Python value given to `safe_int`: `None`, an integer-like value
(anything `int(x)` maps to an integer), or a value on which `int(x)` raises. -/
inductive TsInput where
  | vnone
  | vint (n : Int)
  | vother
deriving DecidableEq

/-- `safe_int`: convert to `int`, `None` on failure (`kudago_download.py:63-70`). -/
def safe_int : TsInput → Option Int
  | .vnone => none
  | .vint n => some n
  | .vother => none

/-- The millisecond fold inside `normalize_unix_ts`: values above
10,000,000,000 are treated as milliseconds and floor-divided by 1000
(`kudago_download.py:87-88`; the operand is positive there, so `Int` division
agrees with Python `//`). -/
def msFold (v : Int) : Int :=
  if 10000000000 < v then v / 1000 else v

/-- `normalize_unix_ts` (`kudago_download.py:73-94`). -/
def normalize_unix_ts (ts : TsInput) : Option Int :=
  match safe_int ts with
  | none => none
  | some v =>
    let v' := msFold v
    if v' < 0 ∨ 4102444800 < v' then none else some v'

/-! ### Date-range selection (`kudago_download.pick_best_date_range`) -/

/-- One element of the KudaGo `dates` list: either a dict with `start`/`end`
fields or a non-dict entry (skipped by the loop). -/
inductive DateEntry where
  | dict (dstart dend : TsInput)
  | nondict
deriving DecidableEq

/-- `norm_ranges` accumulation (`kudago_download.py:117-125`): keep the pairs
whose normalized start exists. -/
def normRanges (dates : List DateEntry) : List (Int × Option Int) :=
  dates.filterMap fun d =>
    match d with
    | .nondict => none
    | .dict s e =>
      match normalize_unix_ts s with
      | none => none
      | some s' => some (s', normalize_unix_ts e)

/-- The stable ascending sort key used by `norm_ranges.sort(key=lambda x: x[0])`. -/
def startLE (a b : Int × Option Int) : Prop := a.1 ≤ b.1

instance : DecidableRel startLE := fun a b => inferInstanceAs (Decidable (a.1 ≤ b.1))

instance : IsTotal (Int × Option Int) startLE := ⟨fun a b => le_total a.1 b.1⟩

instance : IsTrans (Int × Option Int) startLE := ⟨fun _ _ _ h h' => le_trans h h'⟩

/-- The loop test `s == start and e is not None and e >= start`
(`kudago_download.py:137`). -/
def endPred (start : Int) (p : Int × Option Int) : Bool :=
  p.1 == start && (match p.2 with | some e => decide (start ≤ e) | none => false)

/-- The fallback comprehension filter `e is not None and e >= start`
(`kudago_download.py:142`). -/
def endCand (start : Int) (p : Int × Option Int) : Option Int :=
  match p.2 with
  | some e => if start ≤ e then some e else none
  | none => none

/-- The part of `pick_best_date_range` after `norm_ranges.sort(key=...)`
(`kudago_download.py:131-145`): `start` is the head of the sorted list; the
end is the first end `>= start` paired with that exact start, else the
minimum end `>= start` over all pairs, else `None`. -/
def pickFromSorted (sorted : List (Int × Option Int)) : Option Int × Option Int :=
  match sorted with
  | [] => (none, none)
  | (start, _) :: _ =>
    let endv : Option Int :=
      match sorted.find? (endPred start) with
      | some p => p.2
      | none => (sorted.filterMap (endCand start)).min?
    (some start, endv)

/-- `pick_best_date_range` (`kudago_download.py:108-145`). The input is
`none` when `dates` is not a list. Python's stable `list.sort` is modelled by
`insertionSort` (stable sorts by a total preorder are extensionally unique). -/
def pick_best_date_range : Option (List DateEntry) → Option Int × Option Int
  | none => (none, none)
  | some dates =>
    if dates.isEmpty then (none, none)
    else
      let nr := normRanges dates
      if nr.isEmpty then (none, none)
      else pickFromSorted (nr.insertionSort startLE)

/-- "An end `>= start` taken from a pair whose start equals the chosen
minimum" (the first end rule of the spec). -/
def endFromMin (dates : List DateEntry) (s e : Int) : Prop :=
  ∃ p ∈ normRanges dates, p.1 = s ∧ p.2 = some e ∧ s ≤ e

/-- "An end `>= start` from any candidate pair" (the fallback end rule). -/
def endAny (dates : List DateEntry) (s e : Int) : Prop :=
  ∃ p ∈ normRanges dates, p.2 = some e ∧ s ≤ e

/-! ### Anti-bot classification (`http_client._looks_like_antibot`) -/

/-- Python `str.lower()` on the body (ASCII folding; the signal strings are
ASCII). -/
def pyLower (s : List Char) : List Char := s.map Char.toLower

/-- Python's substring test `pat in h`. -/
def hasSub (pat : List Char) : List Char → Bool
  | [] => pat.isEmpty
  | c :: rest => pat.isPrefixOf (c :: rest) || hasSub pat rest

/-- `_looks_like_antibot` (`http_client.py:41-62`): count four signals on the
lowercased body, classify at `signals >= 2`; empty body is `False`. -/
def looks_like_antibot (html : List Char) : Bool :=
  let h := pyLower html
  if h.isEmpty then false
  else
    let s1 : Nat := if hasSub "noindex".toList h && hasSub "noarchive".toList h then 1 else 0
    let s2 : Nat := if hasSub "gorizontal-vertikal".toList h then 1 else 0
    let s3 : Nat := if hasSub "data:image/gif;base64".toList h then 1 else 0
    let s4 : Nat := if hasSub "enable javascript".toList h || hasSub "please enable javascript".toList h then 1 else 0
    decide (2 ≤ s1 + s2 + s3 + s4)

/-- The number of matched anti-bot signals (the `signals` counter of
`_looks_like_antibot`). -/
def antibotScore (html : List Char) : Nat :=
  let h := pyLower html
  (if hasSub "noindex".toList h && hasSub "noarchive".toList h then 1 else 0)
  + (if hasSub "gorizontal-vertikal".toList h then 1 else 0)
  + (if hasSub "data:image/gif;base64".toList h then 1 else 0)
  + (if hasSub "enable javascript".toList h || hasSub "please enable javascript".toList h then 1 else 0)

/-! ### `http_client.fetch_html` -/

/-- The relevant data of one `requests`/`cloudscraper` response. -/
structure HResp where
  final_url : String
  status_code : Int
  content_type : String
  text : List Char
deriving DecidableEq

/-- `FetchResult` (`http_client.py:30-38`). -/
structure FetchResult where
  url : String
  final_url : String
  status_code : Int
  content_type : String
  text : List Char
  used_cloudscraper : Bool
  looks_like_antibot : Bool
deriving DecidableEq

/-- `fetch_html` (`http_client.py:65-126`), with the two transports passed as
explicit responses: `pr` is what `requests.get` returned, `csAvail` is whether
`import cloudscraper` succeeds, `fr` is what the cloudscraper transport would
return. -/
def fetch_html (url : String) (pr : HResp) (use_cloudscraper_if_needed : Bool)
    (csAvail : Bool) (fr : HResp) : FetchResult :=
  let antibot := looks_like_antibot pr.text
  if ¬antibot ∨ ¬use_cloudscraper_if_needed then
    ⟨url, pr.final_url, pr.status_code, pr.content_type, pr.text, false, antibot⟩
  else if ¬csAvail then
    ⟨url, pr.final_url, pr.status_code, pr.content_type, pr.text, false, antibot⟩
  else
    let antibot2 := looks_like_antibot fr.text
    ⟨url, fr.final_url, fr.status_code, fr.content_type, fr.text, true, antibot2⟩

/-! ### `kudago_download.get_json` -/

/-- The relevant data of the `requests` response inside `get_json`: status,
final URL, and the raw body. -/
structure JResp where
  status_code : Int
  url : String
  body : String
deriving DecidableEq

/-- `get_json` (`kudago_download.py:186-197`). `parseJson` is the `r.json()`
oracle: on success it yields the `str(...)` rendering of the parsed payload,
on failure the exception text. Errors carry the exact f-string messages of
the source. -/
def get_json (parseJson : String → Except String String) (r : JResp) :
    Except String String :=
  match parseJson r.body with
  | .error e =>
    .error ("Ответ не JSON. status=" ++ toString r.status_code ++ ", url=" ++ r.url
      ++ ", err=" ++ e)
  | .ok data =>
    if r.status_code ≠ 200 then
      .error ("HTTP " ++ toString r.status_code ++ " при запросе " ++ r.url
        ++ ". Ответ: " ++ data.take 500)
    else
      .ok data

/-! ### Pagination (`kudago_download.iter_events`) -/

/-- The loop body of `iter_events` (`kudago_download.py:376-391`), one page at
a time: `fetchPage p` is the `results` field of the page-`p` API response
(`none` when missing or not a list), `isDict` is the `isinstance(item, dict)`
yield filter. Returns the requested page numbers and the yielded items. The
fuel argument counts the remaining loop iterations (`pages + 1 - page`). -/
def iterEventsAux {α : Type} (fetchPage : Nat → Option (List α)) (isDict : α → Bool) :
    Nat → Nat → List Nat × List α
  | 0, _ => ([], [])
  | fuel + 1, page =>
    match fetchPage page with
    | none => ([page], [])
    | some [] => ([page], [])
    | some (r :: rs) =>
      (page :: (iterEventsAux fetchPage isDict fuel (page + 1)).1,
        (r :: rs).filter isDict ++ (iterEventsAux fetchPage isDict fuel (page + 1)).2)

/-- `iter_events` (`kudago_download.py:354-391`): pages 1..pages. -/
def iter_events {α : Type} (fetchPage : Nat → Option (List α)) (isDict : α → Bool)
    (pages : Nat) : List Nat × List α :=
  iterEventsAux fetchPage isDict pages 1

/-- A page whose `results` is missing, not a list, or empty: the designed
end-of-data signal (`if not isinstance(results, list) or not results: break`). -/
def emptyPage {α : Type} (fetchPage : Nat → Option (List α)) (p : Nat) : Prop :=
  fetchPage p = none ∨ fetchPage p = some []

/-! ### Sitemap crawl (`sitemap_muiv.py`) -/

/-- `BASE` and `NEWS_PREFIX` of `sitemap_muiv.py:18-20`. -/
def newsNS : String := "https://www.muiv.ru/about/news/"

/-- Python `s.rstrip("/")`. -/
def rstripSlash (s : List Char) : List Char :=
  (s.reverse.dropWhile (· == '/')).reverse

/-- `_is_news_url` (`sitemap_muiv.py:40-45`); URLs as `List Char`. -/
def is_news_url (url : List Char) : Bool :=
  if ¬newsNS.toList.isPrefixOf url then false
  else if rstripSlash url = rstripSlash newsNS.toList then false
  else true

/-- `_is_xml_like` (`sitemap_muiv.py:23-25`). -/
def is_xml_like (text : List Char) : Bool :=
  let t := text.dropWhile Char.isWhitespace
  "<?xml".toList.isPrefixOf t || "<urlset".toList.isPrefixOf t
    || "<sitemapindex".toList.isPrefixOf t

/-- The relevant data of one `fetch_html` outcome seen by the crawler. -/
structure SmFetch where
  status_code : Int
  text : List Char

/-- The skip test applied to every fetched sitemap candidate and child
(`sitemap_muiv.py:93,113`): bad status, empty body, or not XML-like. -/
def smBad (f : SmFetch) : Bool :=
  f.status_code != 200 || f.text.isEmpty || !is_xml_like f.text

/-- `urls.add(u)` on the accumulator modelling the Python `set` (kept as a
duplicate-free list; only membership, cardinality and the final sorted view
are ever used). -/
def addIn (acc : List (List Char)) (u : List Char) : List (List Char) :=
  if u ∈ acc then acc else acc ++ [u]

/-- The inner loc loop of `collect_news_urls_from_sitemap`
(`sitemap_muiv.py:102-106,122-126`): filter by the news predicate, add, and
return early (`true`) the moment the accumulator reaches `maxUrls`. -/
def addLocs (maxUrls : Nat) :
    List (List Char) → List (List Char) → List (List Char) × Bool
  | acc, [] => (acc, false)
  | acc, u :: rest =>
    if is_news_url u then
      let acc' := addIn acc u
      if maxUrls ≤ acc'.length then (acc', true)
      else addLocs maxUrls acc' rest
    else addLocs maxUrls acc rest

/-- Processing of one child of a `sitemapindex` (`sitemap_muiv.py:110-126`).
`fetch` is the `fetch_html` oracle, `parse` the `_parse_sitemap_xml` oracle
(`none` models a parse exception). -/
def processChild (fetch : List Char → SmFetch)
    (parse : List Char → Option (String × List (List Char)))
    (maxUrls : Nat) (acc : List (List Char)) (childUrl : List Char) :
    List (List Char) × Bool :=
  let child := fetch childUrl
  if smBad child then (acc, false)
  else
    match parse child.text with
    | none => (acc, false)
    | some (ctag, clocs) =>
      if ctag = "urlset" then addLocs maxUrls acc clocs else (acc, false)

/-- The child loop of the `sitemapindex` branch; also returns the list of
child URLs actually fetched and whether the cap return was taken. -/
def processChildren (fetch : List Char → SmFetch)
    (parse : List Char → Option (String × List (List Char))) (maxUrls : Nat) :
    List (List Char) → List (List Char) →
      List (List Char) × List (List Char) × Bool
  | [], acc => (acc, [], false)
  | c :: cs, acc =>
    let r := processChild fetch parse maxUrls acc c
    if r.2 then (r.1, [c], true)
    else
      let rest := processChildren fetch parse maxUrls cs r.1
      (rest.1, c :: rest.2.1, rest.2.2)

/-- One iteration of the candidate loop of `collect_news_urls_from_sitemap`
(`sitemap_muiv.py:89-126`): skip on bad fetch or parse failure, accumulate a
`urlset`, expand a `sitemapindex` one level. Returns the new accumulator, the
child URLs fetched during this candidate, and whether the cap return was
taken. -/
def processCandidate (fetch : List Char → SmFetch)
    (parse : List Char → Option (String × List (List Char))) (maxUrls : Nat)
    (acc : List (List Char)) (smUrl : List Char) :
    List (List Char) × List (List Char) × Bool :=
  let sm := fetch smUrl
  if smBad sm then (acc, [], false)
  else
    match parse sm.text with
    | none => (acc, [], false)
    | some (tag, locs) =>
      if tag = "urlset" then
        ((addLocs maxUrls acc locs).1, [], (addLocs maxUrls acc locs).2)
      else if tag = "sitemapindex" then processChildren fetch parse maxUrls locs acc
      else (acc, [], false)

/-- The candidate loop of `collect_news_urls_from_sitemap`
(`sitemap_muiv.py:89-126`), instrumented with the list of URLs fetched
(candidates and children, in fetch order) and the cap flag. -/
def collectAux (fetch : List Char → SmFetch)
    (parse : List Char → Option (String × List (List Char))) (maxUrls : Nat) :
    List (List Char) → List (List Char) →
      List (List Char) × List (List Char) × Bool
  | [], acc => (acc, [], false)
  | smUrl :: rest, acc =>
    let a := processCandidate fetch parse maxUrls acc smUrl
    if a.2.2 then (a.1, smUrl :: a.2.1, true)
    else
      let r := collectAux fetch parse maxUrls rest a.1
      (r.1, smUrl :: (a.2.1 ++ r.2.1), r.2.2)

/-- Python `sorted` on URL strings (lexicographic; a stable sort of distinct
strings is just the sort). -/
def sortUrls (l : List (List Char)) : List (List Char) := l.insertionSort (· ≤ ·)

/-- `collect_news_urls_from_sitemap` (`sitemap_muiv.py:79-128`), with the
candidate list from `discover_sitemaps()` passed in and the fetch trace
returned alongside the result. All return paths produce
`sorted(urls)[:max_urls]`. -/
def collect_news_urls_from_sitemap (fetch : List Char → SmFetch)
    (parse : List Char → Option (String × List (List Char)))
    (candidates : List (List Char)) (maxUrls : Nat) :
    List (List Char) × List (List Char) :=
  let r := collectAux fetch parse maxUrls candidates []
  ((sortUrls r.1).take maxUrls, r.2.1)

/-! ### Text utilities and the pair builder (`kudago_download.py:297-351,446-458`) -/

/-- Python `str.strip()`. -/
def pyStrip (l : List Char) : List Char :=
  ((l.dropWhile Char.isWhitespace).reverse.dropWhile Char.isWhitespace).reverse

/-- Python `s.rstrip(".")`. -/
def rstripDots (l : List Char) : List Char :=
  (l.reverse.dropWhile (· == '.')).reverse

/-- Python `sep.join(parts)`. -/
def pyJoin (sep : List Char) : List (List Char) → List Char
  | [] => []
  | [x] => x
  | x :: y :: ys => x ++ sep ++ pyJoin sep (y :: ys)

/-- The `_WS_RE.sub(" ", text)` whitespace collapse: every maximal run of
whitespace becomes a single space. -/
def wsCollapse : List Char → List Char
  | [] => []
  | c :: rest =>
    let r := wsCollapse rest
    if c.isWhitespace then
      if r.head? = some ' ' then r else ' ' :: r
    else c :: r

/-- `EventRecord` (`kudago_download.py:204-219`); text fields as `List Char`. -/
structure EventRecord where
  id : Int
  title : List Char
  description : List Char
  short_title : List Char
  location : List Char
  site_url : List Char
  start_ts : Option Int
  end_ts : Option Int
  start_str : List Char
  end_str : List Char
  place : List Char
  address : List Char
  categories : List Char
  tags : List Char

/-- `make_plan_text` (`kudago_download.py:297-324`). -/
def make_plan_text (ev : EventRecord) : List Char :=
  let parts : List (List Char) :=
    ["Событие: ".toList ++ ev.title]
    ++ (if ev.location.isEmpty then [] else ["Город: ".toList ++ ev.location])
    ++ (if ev.place.isEmpty then [] else ["Место: ".toList ++ ev.place])
    ++ (if ev.address.isEmpty then [] else ["Адрес: ".toList ++ ev.address])
    ++ (if ev.start_str.isEmpty then []
        else if ¬ev.end_str.isEmpty ∧ ev.end_str ≠ ev.start_str then
          ["Дата и время: ".toList ++ ev.start_str ++ " — ".toList ++ ev.end_str]
        else ["Дата и время: ".toList ++ ev.start_str])
    ++ (if ev.categories.isEmpty then [] else ["Категории: ".toList ++ ev.categories])
    ++ (if ev.tags.isEmpty then [] else ["Теги: ".toList ++ ev.tags])
    ++ (if ev.description.isEmpty then []
        else ["Описание: ".toList ++ pyStrip (ev.description.take 320)])
  pyStrip (pyJoin ['\n'] parts)

/-- `make_news_text` (`kudago_download.py:327-351`). -/
def make_news_text (ev : EventRecord) : List Char :=
  let base := if ev.short_title.isEmpty then ev.title else ev.short_title
  let chunk := if ev.description.isEmpty then [] else pyStrip (ev.description.take 420)
  let whenStr :=
    if ev.start_str.isEmpty then []
    else if ev.end_str.isEmpty then ev.start_str
    else ev.start_str ++ "—".toList ++ ev.end_str
  let pieces : List (List Char) :=
    [rstripDots base ++ ['.']]
    ++ (if whenStr.isEmpty then [] else ["Дата: ".toList ++ whenStr ++ ['.']])
    ++ (if ev.place.isEmpty then [] else ["Место: ".toList ++ ev.place ++ ['.']])
    ++ (if chunk.isEmpty then [] else [rstripDots chunk ++ ['.']])
    ++ (if ev.site_url.isEmpty then [] else ["Подробнее: ".toList ++ ev.site_url])
  pyStrip (wsCollapse (pyJoin [' '] pieces))

/-- `DatasetPair`: one row appended by `build_dataset`
(`kudago_download.py:450-458`). -/
structure DatasetPair where
  id : Int
  location : List Char
  source : List Char
  target : List Char
  site_url : List Char
  start_str : List Char
  end_str : List Char

/-- The pair-emission step of `build_dataset` (`kudago_download.py:446-458`):
render both texts and emit only when both are non-empty. -/
def build_pair (ev : EventRecord) : Option DatasetPair :=
  let src := make_plan_text ev
  let tgt := make_news_text ev
  if ¬src.isEmpty ∧ ¬tgt.isEmpty then
    some ⟨ev.id, ev.location, src, tgt, ev.site_url, ev.start_str, ev.end_str⟩
  else none

/-! ### Concrete instances used by the witnesses -/

/-- The spec's date-list example: `[{start: 100, end: 200}, {start: 50, end: 40}]`. -/
def exDates : List DateEntry := [.dict (.vint 100) (.vint 200), .dict (.vint 50) (.vint 40)]

/-- A body with two anti-bot signals (noindex+noarchive and the obfuscation
class). -/
def bodyTwoSignals : List Char :=
  "<meta content=noindex,noarchive><div class=gorizontal-vertikal>".toList

/-- A body with a single anti-bot signal. -/
def bodyOneSignal : List Char := "<meta content=noindex,noarchive>".toList

/-- A page oracle whose page 2 has an empty `results` list. -/
def exFetchPage : Nat → Option (List Nat) := fun p =>
  if p = 1 then some [7] else if p = 2 then some [] else some [9]

/-- Matching news URLs for the crawl examples. -/
def nu1 : List Char := "https://www.muiv.ru/about/news/a1/".toList

def nu2 : List Char := "https://www.muiv.ru/about/news/b2/".toList

def nu3 : List Char := "https://www.muiv.ru/about/news/c3/".toList

def nu4 : List Char := "https://www.muiv.ru/about/news/d4/".toList

def nu5 : List Char := "https://www.muiv.ru/about/news/e5/".toList

def idxUrl : List Char := "https://www.muiv.ru/sitemap.xml".toList

def childA : List Char := "https://www.muiv.ru/sitemap-news.xml".toList

def childB : List Char := "https://www.muiv.ru/sitemap-bad.xml".toList

def cand2 : List Char := "https://www.muiv.ru/sitemap2.xml".toList

def idxBody : List Char := "<sitemapindex>i</sitemapindex>".toList

def childABody : List Char := "<urlset>a</urlset>".toList

def childBBody : List Char := "<html>blocked</html>".toList

def usBody : List Char := "<urlset>u</urlset>".toList

/-- Fetch oracle: a sitemap index with one valid urlset child and one child
answering with a non-XML (anti-bot style HTML) body. -/
def exFetch : List Char → SmFetch := fun u =>
  if u = idxUrl then ⟨200, idxBody⟩
  else if u = childA then ⟨200, childABody⟩
  else if u = childB then ⟨200, childBBody⟩
  else ⟨404, []⟩

/-- Parse oracle matching `exFetch`: the index lists two children, the good
child is a urlset with three matching news locs, anything else fails. -/
def exParse : List Char → Option (String × List (List Char)) := fun b =>
  if b = idxBody then some ("sitemapindex", [childA, childB])
  else if b = childABody then some ("urlset", [nu2, nu1, nu3])
  else none

/-- Fetch oracle: every candidate answers with the same urlset body. -/
def exFetch2 : List Char → SmFetch := fun _ => ⟨200, usBody⟩

/-- Parse oracle: the urlset has five matching news locs. -/
def exParse2 : List Char → Option (String × List (List Char)) := fun b =>
  if b = usBody then some ("urlset", [nu1, nu2, nu3, nu4, nu5]) else none

/-- A `r.json()` oracle that fails the way `json` fails on an HTML body:
the exception text does not depend on the body. -/
def parseFailOracle : String → Except String String := fun _ =>
  .error "Expecting value: line 1 column 1 (char 0)"

/-- A `r.json()` oracle that succeeds with a fixed rendering. -/
def parseOkOracle : String → Except String String := fun b => .ok b

/-! ## Claim C1 -/

/-- C1 (counterexample): the claim that `normalize_unix_ts` returns absent
whenever the input's integer value exceeds 4,102,444,800 is false:
2,000,000,000,000 exceeds the bound, yet it is folded as milliseconds and
accepted as 2,000,000,000. -/
theorem normalize_ts_range_cex :
    (4102444800 : Int) < 2000000000000 ∧
      normalize_unix_ts (.vint 2000000000000) = some 2000000000 :=
  ⟨by decide, by decide⟩

/-- C1 (amended): `normalize_unix_ts` returns `none` for `None`, for inputs
not convertible to an integer, for negative integers, and for integers whose
millisecond-folded value exceeds 4,102,444,800; every returned value lies in
[0, 4,102,444,800]. -/
theorem normalize_ts_range :
    normalize_unix_ts .vnone = none ∧
    normalize_unix_ts .vother = none ∧
    (∀ n : Int, n < 0 → normalize_unix_ts (.vint n) = none) ∧
    (∀ n : Int, 4102444800 < msFold n → normalize_unix_ts (.vint n) = none) ∧
    (∀ t : TsInput, ∀ r : Int, normalize_unix_ts t = some r →
      0 ≤ r ∧ r ≤ 4102444800) := by
  refine ⟨rfl, rfl, ?_, ?_, ?_⟩
  · intro n hn
    have hf : msFold n = n := by rw [msFold, if_neg (by omega)]
    show (if msFold n < 0 ∨ 4102444800 < msFold n then none else some (msFold n)) = none
    rw [hf, if_pos (Or.inl hn)]
  · intro n h
    show (if msFold n < 0 ∨ 4102444800 < msFold n then none else some (msFold n)) = none
    rw [if_pos (Or.inr h)]
  · intro t r h
    cases t with
    | vnone => simp [normalize_unix_ts, safe_int] at h
    | vother => simp [normalize_unix_ts, safe_int] at h
    | vint n =>
      have h' : (if msFold n < 0 ∨ 4102444800 < msFold n then (none : Option Int)
          else some (msFold n)) = some r := h
      by_cases hc : msFold n < 0 ∨ 4102444800 < msFold n
      · rw [if_pos hc] at h'
        exact absurd h' (by simp)
      · rw [if_neg hc] at h'
        have hr : msFold n = r := by injection h'
        push_neg at hc
        omega

/-- C1 witness: the amended theorem applied at −7, at 5,000,000,000 (for
which the folded value exceeds the bound), and at the accepted value
2,000,000,000. -/
theorem normalize_ts_range_witness :
    normalize_unix_ts (.vint (-7)) = none ∧
    normalize_unix_ts (.vint 5000000000) = none ∧
    (0 ≤ (2000000000 : Int) ∧ (2000000000 : Int) ≤ 4102444800) :=
  ⟨normalize_ts_range.2.2.1 (-7) (by decide),
   normalize_ts_range.2.2.2.1 5000000000 (by decide),
   normalize_ts_range.2.2.2.2 (.vint 2000000000000) 2000000000 (by decide)⟩

/-! ## Claim C2 -/

/-- C2 (counterexample): the millisecond-fold identity
`normalize_unix_ts v = normalize_unix_ts (v / 1000)` fails for
v = 10,000,000,001,000 (> 10,000,000,000): the left side rejects the folded
value 10,000,000,001, while the right side folds a second time and accepts
10,000,000. -/
theorem ms_fold_idem_cex :
    (0 : Int) ≤ 10000000001000 ∧ (10000000000 : Int) < 10000000001000 ∧
      normalize_unix_ts (.vint 10000000001000)
        ≠ normalize_unix_ts (.vint (10000000001000 / 1000)) :=
  ⟨by decide, by decide, by decide⟩

/-- C2 (amended): for integers v with 10,000,000,000 < v whose folded value
v / 1000 does not itself exceed 10,000,000,000 (i.e. v ≤ 10,000,000,000,999),
`normalize_unix_ts v = normalize_unix_ts (v / 1000)`. -/
theorem ms_fold_idem :
    ∀ v : Int, 0 ≤ v → 10000000000 < v → v / 1000 ≤ 10000000000 →
      normalize_unix_ts (.vint v) = normalize_unix_ts (.vint (v / 1000)) := by
  intro v h0 h1 h2
  show (if msFold v < 0 ∨ 4102444800 < msFold v then (none : Option Int)
      else some (msFold v))
    = (if msFold (v / 1000) < 0 ∨ 4102444800 < msFold (v / 1000) then (none : Option Int)
      else some (msFold (v / 1000)))
  rw [show msFold v = v / 1000 from by rw [msFold, if_pos h1],
    show msFold (v / 1000) = v / 1000 from by rw [msFold, if_neg (by omega)]]

/-- C2 witness: the amended identity at v = 20,000,000,000. -/
theorem ms_fold_idem_witness :
    normalize_unix_ts (.vint 20000000000) = normalize_unix_ts (.vint (20000000000 / 1000)) :=
  ms_fold_idem 20000000000 (by decide) (by decide) (by decide)

/-! ## Claim C4 -/

/-- C4: `_looks_like_antibot` classifies a body as anti-bot exactly when at
least two of the four independent signals match; a body matching at most one
signal is never classified anti-bot. -/
theorem antibot_two_signal_threshold :
    ∀ html : List Char,
      (looks_like_antibot html = true ↔ 2 ≤ antibotScore html) ∧
      (antibotScore html ≤ 1 → looks_like_antibot html = false) := by
  intro html
  have key : looks_like_antibot html = true ↔ 2 ≤ antibotScore html := by
    by_cases he : (pyLower html).isEmpty = true
    · have h0 : pyLower html = [] := by simpa using he
      have hs : antibotScore html = 0 := by
        simp only [antibotScore, h0]
        decide
      have hl : looks_like_antibot html = false := by
        simp only [looks_like_antibot]
        rw [if_pos he]
      rw [hl, hs]
      simp
    · have heq : looks_like_antibot html = decide (2 ≤ antibotScore html) := by
        simp only [looks_like_antibot, antibotScore]
        rw [if_neg he]
      rw [heq]
      exact decide_eq_true_iff
  refine ⟨key, fun hle => ?_⟩
  cases hb : looks_like_antibot html
  · rfl
  · exact absurd (key.mp hb) (by omega)

/-- C4 witness: a body with the noindex+noarchive co-occurrence and the
obfuscation class marker (2 signals) is classified anti-bot; a body with just
the co-occurrence (1 signal) is not. -/
theorem antibot_two_signal_threshold_witness :
    looks_like_antibot bodyTwoSignals = true ∧ looks_like_antibot bodyOneSignal = false :=
  ⟨(antibot_two_signal_threshold bodyTwoSignals).1.mpr (by decide),
   (antibot_two_signal_threshold bodyOneSignal).2 (by decide)⟩

/-! ## Claim C5 -/

/-- C5: `fetch_html` returns the primary result with `used_cloudscraper =
false` whenever the primary body is not classified anti-bot or the fallback
is disabled; and when the body is anti-bot, the fallback is enabled but
cloudscraper is unavailable, it returns the primary result unchanged with
`used_cloudscraper = false` and the anti-bot flag still reflecting the
primary attempt. -/
theorem fetch_html_fallback_contract :
    ∀ (url : String) (pr : HResp) (useCS csAvail : Bool) (fr : HResp),
      (looks_like_antibot pr.text = false ∨ useCS = false →
        fetch_html url pr useCS csAvail fr =
          ⟨url, pr.final_url, pr.status_code, pr.content_type, pr.text, false,
            looks_like_antibot pr.text⟩) ∧
      (looks_like_antibot pr.text = true → useCS = true → csAvail = false →
        fetch_html url pr useCS csAvail fr =
          ⟨url, pr.final_url, pr.status_code, pr.content_type, pr.text, false,
            looks_like_antibot pr.text⟩) := by
  intro url pr useCS csAvail fr
  constructor
  · intro h
    have hc : ¬looks_like_antibot pr.text = true ∨ ¬useCS = true := by
      rcases h with h | h
      · exact Or.inl (by simp [h])
      · exact Or.inr (by simp [h])
    simp only [fetch_html]
    rw [if_pos hc]
  · intro h1 h2 h3
    simp only [fetch_html]
    rw [if_neg (by simp [h1, h2]), if_pos (by simp [h3])]

/-- C5 witness: a clean body with fallback enabled, and a blocked body with
fallback enabled but cloudscraper unavailable. -/
theorem fetch_html_fallback_witness :
    fetch_html "u" ⟨"u", 200, "text/html", bodyOneSignal⟩ true true ⟨"u", 200, "", []⟩ =
      ⟨"u", "u", 200, "text/html", bodyOneSignal, false, looks_like_antibot bodyOneSignal⟩ ∧
    fetch_html "u" ⟨"u", 403, "text/html", bodyTwoSignals⟩ true false ⟨"u", 200, "", []⟩ =
      ⟨"u", "u", 403, "text/html", bodyTwoSignals, false, looks_like_antibot bodyTwoSignals⟩ :=
  ⟨(fetch_html_fallback_contract "u" ⟨"u", 200, "text/html", bodyOneSignal⟩ true true
      ⟨"u", 200, "", []⟩).1 (Or.inl (by decide)),
   (fetch_html_fallback_contract "u" ⟨"u", 403, "text/html", bodyTwoSignals⟩ true false
      ⟨"u", 200, "", []⟩).2 (by decide) rfl rfl⟩

/-! ## Claim C9 -/

/-- C9 (counterexample): the parse-failure error of `get_json` does not carry
a truncated body excerpt: two responses that differ only in their
(unparseable) bodies produce identical errors. -/
theorem get_json_parse_error_cex :
    ("<html>aaaa" : String) ≠ "<html>bbbb" ∧
      get_json parseFailOracle ⟨500, "https://kudago.com/x", "<html>aaaa"⟩ =
        get_json parseFailOracle ⟨500, "https://kudago.com/x", "<html>bbbb"⟩ :=
  ⟨by decide, rfl⟩

/-- C9 (amended): `get_json` attempts to parse first and only then checks the
status. If parsing fails — regardless of the status — it fails with an error
carrying the raw status, the URL and the parse-exception text (no body
excerpt); if parsing succeeds but the status is not 200 it fails with an
error carrying the status, the URL and the stringified payload truncated to
500 characters; if parsing succeeds and the status is 200 it returns the
parsed body. -/
theorem get_json_parse_first :
    ∀ (parseJson : String → Except String String) (r : JResp),
      (∀ e, parseJson r.body = .error e →
        get_json parseJson r = .error ("Ответ не JSON. status=" ++ toString r.status_code
          ++ ", url=" ++ r.url ++ ", err=" ++ e)) ∧
      (∀ d, parseJson r.body = .ok d → r.status_code ≠ 200 →
        get_json parseJson r = .error ("HTTP " ++ toString r.status_code ++ " при запросе "
          ++ r.url ++ ". Ответ: " ++ d.take 500)) ∧
      (∀ d, parseJson r.body = .ok d → r.status_code = 200 →
        get_json parseJson r = .ok d) := by
  intro parseJson r
  refine ⟨?_, ?_, ?_⟩
  · intro e he
    simp only [get_json, he]
  · intro d hd hs
    simp only [get_json, hd]
    rw [if_pos hs]
  · intro d hd hs
    simp only [get_json, hd]
    rw [if_neg (by simp [hs])]

/-- C9 witness: the three branches at concrete responses — a 500 with an
unparseable body, a 404 with a parseable body, and a 200 with a parseable
body. -/
theorem get_json_parse_first_witness :
    get_json parseFailOracle ⟨500, "u1", "<html>"⟩ =
      .error ("Ответ не JSON. status=" ++ toString (500 : Int) ++ ", url=" ++ "u1"
        ++ ", err=" ++ "Expecting value: line 1 column 1 (char 0)") ∧
    get_json parseOkOracle ⟨404, "u2", "{}"⟩ =
      .error ("HTTP " ++ toString (404 : Int) ++ " при запросе " ++ "u2"
        ++ ". Ответ: " ++ ("{}" : String).take 500) ∧
    get_json parseOkOracle ⟨200, "u3", "{}"⟩ = .ok "{}" :=
  ⟨(get_json_parse_first parseFailOracle ⟨500, "u1", "<html>"⟩).1
      "Expecting value: line 1 column 1 (char 0)" rfl,
   (get_json_parse_first parseOkOracle ⟨404, "u2", "{}"⟩).2.1 "{}" rfl (by decide),
   (get_json_parse_first parseOkOracle ⟨200, "u3", "{}"⟩).2.2 "{}" rfl rfl⟩


lemma endPred_iff (start : Int) (p : Int × Option Int) :
    endPred start p = true ↔ p.1 = start ∧ ∃ e, p.2 = some e ∧ start ≤ e := by
  obtain ⟨a, b⟩ := p
  cases b <;> simp [endPred]

lemma endCand_eq_some (start : Int) (p : Int × Option Int) (e : Int) :
    endCand start p = some e ↔ p.2 = some e ∧ start ≤ e := by
  obtain ⟨a, b⟩ := p
  cases b with
  | none => simp [endCand]
  | some e' =>
    simp only [endCand]
    by_cases h : start ≤ e'
    · rw [if_pos h]
      constructor
      · intro h'
        have he : e' = e := by injection h'
        subst he
        exact ⟨rfl, h⟩
      · rintro ⟨h', _⟩
        exact h'
    · rw [if_neg h]
      constructor
      · intro h'
        exact absurd h' (by simp)
      · rintro ⟨h', hle⟩
        have he : e' = e := by injection h'
        subst he
        exact absurd hle h

/-- C3 -/
theorem pick_best_date_range_spec :
    ∀ dates : List DateEntry, normRanges dates ≠ [] →
      ∃ s oe, pick_best_date_range (some dates) = (some s, oe) ∧
        (∃ p ∈ normRanges dates, p.1 = s) ∧
        (∀ p ∈ normRanges dates, s ≤ p.1) ∧
        ((∃ e, endFromMin dates s e) → ∃ e, oe = some e ∧ endFromMin dates s e) ∧
        ((¬∃ e, endFromMin dates s e) → (∃ e, endAny dates s e) →
          ∃ e, oe = some e ∧ endAny dates s e ∧ ∀ e', endAny dates s e' → e ≤ e') ∧
        ((¬∃ e, endAny dates s e) → oe = none) := by
  intro dates hnr
  have hperm : List.Perm ((normRanges dates).insertionSort startLE) (normRanges dates) :=
    List.perm_insertionSort startLE (normRanges dates)
  have hsorted : ((normRanges dates).insertionSort startLE).Sorted startLE :=
    List.sorted_insertionSort startLE (normRanges dates)
  have hsne : (normRanges dates).insertionSort startLE ≠ [] := by
    intro h
    apply hnr
    have hl := hperm.length_eq
    rw [h] at hl
    exact List.length_eq_zero.mp hl.symm
  obtain ⟨q, qs, hcons⟩ := List.exists_cons_of_ne_nil hsne
  obtain ⟨s, e0⟩ := q
  have hmem : ∀ p : Int × Option Int, p ∈ (s, e0) :: qs ↔ p ∈ normRanges dates := by
    intro p
    rw [← hcons]
    exact hperm.mem_iff
  have hde : dates ≠ [] := by
    intro h
    exact hnr (by rw [h]; rfl)
  have hpick : pick_best_date_range (some dates) = pickFromSorted ((s, e0) :: qs) := by
    simp only [pick_best_date_range]
    rw [if_neg (by simpa using hde), if_neg (by simpa using hnr), hcons]
  rw [hcons] at hsorted
  have hmin : ∀ p ∈ normRanges dates, s ≤ p.1 := by
    intro p hp
    rw [← hmem] at hp
    rcases List.mem_cons.mp hp with h | h
    · rw [h]
    · exact List.rel_of_sorted_cons hsorted p h
  have hsmem : ((s, e0) : Int × Option Int) ∈ normRanges dates :=
    (hmem _).mp (List.mem_cons_self _ _)
  refine ⟨s, (pickFromSorted ((s, e0) :: qs)).2, ?_, ⟨(s, e0), hsmem, rfl⟩, hmin, ?_, ?_, ?_⟩
  · rw [hpick]
    rfl
  · rintro ⟨e, p, hpmem, hps, hpe, hse⟩
    cases hf : List.find? (endPred s) ((s, e0) :: qs) with
    | none =>
      exfalso
      have hall := List.find?_eq_none.mp hf p ((hmem p).mpr hpmem)
      exact hall ((endPred_iff s p).mpr ⟨hps, e, hpe, hse⟩)
    | some p' =>
      obtain ⟨hp1, e', hp2, hse'⟩ := (endPred_iff s p').mp (List.find?_some hf)
      refine ⟨e', ?_, p', (hmem p').mp (List.mem_of_find?_eq_some hf), hp1, hp2, hse'⟩
      show (pickFromSorted ((s, e0) :: qs)).2 = some e'
      simp only [pickFromSorted]
      rw [hf]
      exact hp2
  · intro hnA hB
    obtain ⟨e, p, hpmem, hpe, hse⟩ := hB
    cases hf : List.find? (endPred s) ((s, e0) :: qs) with
    | some p' =>
      exfalso
      obtain ⟨hp1, e', hp2, hse'⟩ := (endPred_iff s p').mp (List.find?_some hf)
      exact hnA ⟨e', p', (hmem p').mp (List.mem_of_find?_eq_some hf), hp1, hp2, hse'⟩
    | none =>
      have hoe : (pickFromSorted ((s, e0) :: qs)).2 =
          (((s, e0) :: qs).filterMap (endCand s)).min? := by
        simp only [pickFromSorted]
        rw [hf]
      have hecands : e ∈ ((s, e0) :: qs).filterMap (endCand s) :=
        List.mem_filterMap.mpr ⟨p, (hmem p).mpr hpmem, (endCand_eq_some s p e).mpr ⟨hpe, hse⟩⟩
      cases hm : (((s, e0) :: qs).filterMap (endCand s)).min? with
      | none =>
        exfalso
        have hnil := List.min?_eq_none_iff.mp hm
        rw [hnil] at hecands
        exact absurd hecands (List.not_mem_nil e)
      | some m =>
        haveI : Std.Antisymm ((· ≤ ·) : Int → Int → Prop) :=
          ⟨fun h h' => le_antisymm h h'⟩
        have hiff : (((s, e0) :: qs).filterMap (endCand s)).min? = some m ↔
            m ∈ ((s, e0) :: qs).filterMap (endCand s) ∧
              ∀ b ∈ ((s, e0) :: qs).filterMap (endCand s), m ≤ b :=
          List.min?_eq_some_iff (fun a : Int => le_refl a)
            (fun a b : Int => min_choice a b)
            (fun a b c : Int => le_min_iff)
        obtain ⟨hmmem, hmle⟩ := hiff.mp hm
        obtain ⟨pm, hpmmem, hpmc⟩ := List.mem_filterMap.mp hmmem
        obtain ⟨hpm2, hsm⟩ := (endCand_eq_some s pm m).mp hpmc
        refine ⟨m, by rw [hoe, hm], ⟨pm, (hmem pm).mp hpmmem, hpm2, hsm⟩, ?_⟩
        intro e' he'
        obtain ⟨p', hp'mem, hp'2, hs'⟩ := he'
        exact hmle e' (List.mem_filterMap.mpr
          ⟨p', (hmem p').mpr hp'mem, (endCand_eq_some s p' e').mpr ⟨hp'2, hs'⟩⟩)
  · intro hnB
    cases hf : List.find? (endPred s) ((s, e0) :: qs) with
    | some p' =>
      exfalso
      obtain ⟨hp1, e', hp2, hse'⟩ := (endPred_iff s p').mp (List.find?_some hf)
      exact hnB ⟨e', p', (hmem p').mp (List.mem_of_find?_eq_some hf), hp2, hse'⟩
    | none =>
      have hoe : (pickFromSorted ((s, e0) :: qs)).2 =
          (((s, e0) :: qs).filterMap (endCand s)).min? := by
        simp only [pickFromSorted]
        rw [hf]
      rw [hoe]
      rw [List.min?_eq_none_iff]
      cases hc : ((s, e0) :: qs).filterMap (endCand s) with
      | nil => rfl
      | cons c cs =>
        exfalso
        have hcm : c ∈ ((s, e0) :: qs).filterMap (endCand s) := by
          rw [hc]
          exact List.mem_cons_self _ _
        obtain ⟨p', hp'mem, hp'c⟩ := List.mem_filterMap.mp hcm
        obtain ⟨hp'2, hs'⟩ := (endCand_eq_some s p' c).mp hp'c
        exact hnB ⟨c, p', (hmem p').mp hp'mem, hp'2, hs'⟩


/-- C3 witness: the spec's example `[{start:100,end:200},{start:50,end:40}]`
has a normalizable start, satisfies the characterization, and evaluates to
start=50, end=200 (not 40). -/
theorem pick_best_date_range_spec_witness :
    (∃ s oe, pick_best_date_range (some exDates) = (some s, oe) ∧
      (∃ p ∈ normRanges exDates, p.1 = s) ∧
      (∀ p ∈ normRanges exDates, s ≤ p.1) ∧
      ((∃ e, endFromMin exDates s e) → ∃ e, oe = some e ∧ endFromMin exDates s e) ∧
      ((¬∃ e, endFromMin exDates s e) → (∃ e, endAny exDates s e) →
        ∃ e, oe = some e ∧ endAny exDates s e ∧ ∀ e', endAny exDates s e' → e ≤ e') ∧
      ((¬∃ e, endAny exDates s e) → oe = none)) ∧
    pick_best_date_range (some exDates) = (some 50, some 200) :=
  ⟨pick_best_date_range_spec exDates (by decide), by decide⟩


lemma iterEventsAux_pages {α : Type} (fetchPage : Nat → Option (List α)) (isDict : α → Bool) :
    ∀ (fuel page : Nat),
      ∃ k, k ≤ fuel ∧ (0 < fuel → 0 < k) ∧
        (iterEventsAux fetchPage isDict fuel page).1 = List.range' page k ∧
        (∀ i, page ≤ i → i + 1 < page + k → ¬emptyPage fetchPage i) ∧
        (k = fuel ∨ (0 < k ∧ emptyPage fetchPage (page + (k - 1)))) := by
  intro fuel
  induction fuel with
  | zero =>
    intro page
    exact ⟨0, Nat.le_refl 0, by omega, rfl, by omega, Or.inl rfl⟩
  | succ n ih =>
    intro page
    cases hp : fetchPage page with
    | none =>
      refine ⟨1, by omega, by omega, ?_, by omega, Or.inr ⟨by omega, ?_⟩⟩
      · simp [iterEventsAux, hp]
      · have harith : page + (1 - 1) = page := by omega
        rw [harith]
        exact Or.inl hp
    | some rs =>
      cases rs with
      | nil =>
        refine ⟨1, by omega, by omega, ?_, by omega, Or.inr ⟨by omega, ?_⟩⟩
        · simp [iterEventsAux, hp]
        · have harith : page + (1 - 1) = page := by omega
          rw [harith]
          exact Or.inr hp
      | cons r rest =>
        obtain ⟨k, hk1, hk2, hk3, hk4, hk5⟩ := ih (page + 1)
        refine ⟨k + 1, by omega, by omega, ?_, ?_, ?_⟩
        · simp only [iterEventsAux, hp]
          rw [List.range'_succ, hk3]
        · intro i h1 h2
          by_cases hi : i = page
          · subst hi
            intro hemp
            rcases hemp with h | h
            · rw [hp] at h
              exact absurd h (by simp)
            · rw [hp] at h
              exact absurd h (by simp)
          · exact hk4 i (by omega) (by omega)
        · rcases hk5 with h | ⟨hk0, hke⟩
          · exact Or.inl (by omega)
          · refine Or.inr ⟨by omega, ?_⟩
            have harith : page + (k + 1 - 1) = page + 1 + (k - 1) := by omega
            rw [harith]
            exact hke

/-- C6 -/
theorem iter_events_pagination {α : Type} :
    ∀ (fetchPage : Nat → Option (List α)) (isDict : α → Bool) (pages : Nat),
      1 ≤ pages →
      ∃ k, 1 ≤ k ∧ k ≤ pages ∧
        (iter_events fetchPage isDict pages).1 = List.range' 1 k ∧
        (∀ i, 1 ≤ i → i < k → ¬emptyPage fetchPage i) ∧
        (k = pages ∨ emptyPage fetchPage k) := by
  intro fetchPage isDict pages hpages
  obtain ⟨k, hk1, hk2, hk3, hk4, hk5⟩ := iterEventsAux_pages fetchPage isDict pages 1
  have hkpos : 0 < k := hk2 (by omega)
  refine ⟨k, by omega, hk1, hk3, ?_, ?_⟩
  · intro i h1 h2
    exact hk4 i h1 (by omega)
  · rcases hk5 with h | ⟨_, hke⟩
    · exact Or.inl h
    · have harith : 1 + (k - 1) = k := by omega
      rw [harith] at hke
      exact Or.inr hke

/-- C6 witness -/
theorem iter_events_pagination_witness :
    (∃ k, 1 ≤ k ∧ k ≤ 5 ∧
      (iter_events exFetchPage (fun _ => true) 5).1 = List.range' 1 k ∧
      (∀ i, 1 ≤ i → i < k → ¬emptyPage exFetchPage i) ∧
      (k = 5 ∨ emptyPage exFetchPage k)) ∧
    (iter_events exFetchPage (fun _ => true) 5).1 = [1, 2] ∧
    3 ∉ (iter_events exFetchPage (fun _ => true) 5).1 :=
  ⟨iter_events_pagination exFetchPage (fun _ => true) 5 (by omega), by decide, by decide⟩


lemma addIn_mem (acc : List (List Char)) (u v : List Char) :
    v ∈ addIn acc u ↔ v ∈ acc ∨ v = u := by
  unfold addIn
  by_cases h : u ∈ acc
  · rw [if_pos h]
    constructor
    · exact Or.inl
    · rintro (hv | rfl)
      · exact hv
      · exact h
  · rw [if_neg h]
    simp [List.mem_append]

lemma addIn_nodup (acc : List (List Char)) (u : List Char) (h : acc.Nodup) :
    (addIn acc u).Nodup := by
  unfold addIn
  by_cases hm : u ∈ acc
  · rw [if_pos hm]
    exact h
  · rw [if_neg hm]
    rw [List.nodup_append]
    refine ⟨h, List.nodup_singleton u, ?_⟩
    intro a ha hau
    rw [List.mem_singleton] at hau
    exact hm (hau ▸ ha)

lemma addLocs_inv (maxUrls : Nat) :
    ∀ (locs acc : List (List Char)),
      (∀ u ∈ (addLocs maxUrls acc locs).1, u ∈ acc ∨ is_news_url u = true) ∧
      (acc.Nodup → (addLocs maxUrls acc locs).1.Nodup) := by
  intro locs
  induction locs with
  | nil =>
    intro acc
    exact ⟨fun u hu => Or.inl hu, fun h => h⟩
  | cons u rest ih =>
    intro acc
    by_cases hn : is_news_url u = true
    · by_cases hcap : maxUrls ≤ (addIn acc u).length
      · have hred : addLocs maxUrls acc (u :: rest) = (addIn acc u, true) := by
          simp only [addLocs]
          rw [if_pos hn, if_pos hcap]
        rw [hred]
        constructor
        · intro v hv
          rcases (addIn_mem acc u v).mp hv with h | rfl
          · exact Or.inl h
          · exact Or.inr hn
        · intro h
          exact addIn_nodup acc u h
      · have hred : addLocs maxUrls acc (u :: rest) = addLocs maxUrls (addIn acc u) rest := by
          simp only [addLocs]
          rw [if_pos hn, if_neg hcap]
        rw [hred]
        constructor
        · intro v hv
          rcases (ih (addIn acc u)).1 v hv with h | h
          · rcases (addIn_mem acc u v).mp h with h' | rfl
            · exact Or.inl h'
            · exact Or.inr hn
          · exact Or.inr h
        · intro h
          exact (ih (addIn acc u)).2 (addIn_nodup acc u h)
    · have hred : addLocs maxUrls acc (u :: rest) = addLocs maxUrls acc rest := by
        simp only [addLocs]
        rw [if_neg hn]
      rw [hred]
      exact ih acc

lemma processChild_inv (fetch : List Char → SmFetch)
    (parse : List Char → Option (String × List (List Char))) (maxUrls : Nat)
    (acc : List (List Char)) (childUrl : List Char) :
    (∀ u ∈ (processChild fetch parse maxUrls acc childUrl).1,
      u ∈ acc ∨ is_news_url u = true) ∧
    (acc.Nodup → (processChild fetch parse maxUrls acc childUrl).1.Nodup) := by
  by_cases hbad : smBad (fetch childUrl) = true
  · have hred : processChild fetch parse maxUrls acc childUrl = (acc, false) := by
      simp [processChild, hbad]
    rw [hred]
    exact ⟨fun u hu => Or.inl hu, fun h => h⟩
  · cases hp : parse (fetch childUrl).text with
    | none =>
      have hred : processChild fetch parse maxUrls acc childUrl = (acc, false) := by
        simp [processChild, hbad, hp]
      rw [hred]
      exact ⟨fun u hu => Or.inl hu, fun h => h⟩
    | some pr =>
      obtain ⟨tag, locs⟩ := pr
      by_cases ht : tag = "urlset"
      · have hred : processChild fetch parse maxUrls acc childUrl =
            addLocs maxUrls acc locs := by
          simp [processChild, hbad, hp, ht]
        rw [hred]
        exact addLocs_inv maxUrls locs acc
      · have hred : processChild fetch parse maxUrls acc childUrl = (acc, false) := by
          simp [processChild, hbad, hp, ht]
        rw [hred]
        exact ⟨fun u hu => Or.inl hu, fun h => h⟩

lemma processChildren_inv (fetch : List Char → SmFetch)
    (parse : List Char → Option (String × List (List Char))) (maxUrls : Nat) :
    ∀ (children acc : List (List Char)),
      (∀ u ∈ (processChildren fetch parse maxUrls children acc).1,
        u ∈ acc ∨ is_news_url u = true) ∧
      (acc.Nodup → (processChildren fetch parse maxUrls children acc).1.Nodup) := by
  intro children
  induction children with
  | nil =>
    intro acc
    exact ⟨fun u hu => Or.inl hu, fun h => h⟩
  | cons c cs ih =>
    intro acc
    by_cases hcap : (processChild fetch parse maxUrls acc c).2 = true
    · have hred : processChildren fetch parse maxUrls (c :: cs) acc =
          ((processChild fetch parse maxUrls acc c).1, [c], true) := by
        simp only [processChildren]
        rw [if_pos hcap]
      rw [hred]
      exact processChild_inv fetch parse maxUrls acc c
    · have hred : processChildren fetch parse maxUrls (c :: cs) acc =
          ((processChildren fetch parse maxUrls cs
              (processChild fetch parse maxUrls acc c).1).1,
            c :: (processChildren fetch parse maxUrls cs
              (processChild fetch parse maxUrls acc c).1).2.1,
            (processChildren fetch parse maxUrls cs
              (processChild fetch parse maxUrls acc c).1).2.2) := by
        simp only [processChildren]
        rw [if_neg hcap]
      rw [hred]
      constructor
      · intro v hv
        rcases (ih _).1 v hv with h | h
        · rcases (processChild_inv fetch parse maxUrls acc c).1 v h with h' | h'
          · exact Or.inl h'
          · exact Or.inr h'
        · exact Or.inr h
      · intro h
        exact (ih _).2 ((processChild_inv fetch parse maxUrls acc c).2 h)

lemma processCandidate_inv (fetch : List Char → SmFetch)
    (parse : List Char → Option (String × List (List Char))) (maxUrls : Nat)
    (acc : List (List Char)) (smUrl : List Char) :
    (∀ u ∈ (processCandidate fetch parse maxUrls acc smUrl).1,
      u ∈ acc ∨ is_news_url u = true) ∧
    (acc.Nodup → (processCandidate fetch parse maxUrls acc smUrl).1.Nodup) := by
  by_cases hbad : smBad (fetch smUrl) = true
  · have hred : processCandidate fetch parse maxUrls acc smUrl = (acc, [], false) := by
      simp [processCandidate, hbad]
    rw [hred]
    exact ⟨fun u hu => Or.inl hu, fun h => h⟩
  · cases hp : parse (fetch smUrl).text with
    | none =>
      have hred : processCandidate fetch parse maxUrls acc smUrl = (acc, [], false) := by
        simp [processCandidate, hbad, hp]
      rw [hred]
      exact ⟨fun u hu => Or.inl hu, fun h => h⟩
    | some pr =>
      obtain ⟨tag, locs⟩ := pr
      by_cases ht : tag = "urlset"
      · have hred : processCandidate fetch parse maxUrls acc smUrl =
            ((addLocs maxUrls acc locs).1, [], (addLocs maxUrls acc locs).2) := by
          simp [processCandidate, hbad, hp, ht]
        rw [hred]
        exact addLocs_inv maxUrls locs acc
      · by_cases ht2 : tag = "sitemapindex"
        · have hred : processCandidate fetch parse maxUrls acc smUrl =
              processChildren fetch parse maxUrls locs acc := by
            simp [processCandidate, hbad, hp, ht, ht2]
          rw [hred]
          exact processChildren_inv fetch parse maxUrls locs acc
        · have hred : processCandidate fetch parse maxUrls acc smUrl = (acc, [], false) := by
            simp [processCandidate, hbad, hp, ht, ht2]
          rw [hred]
          exact ⟨fun u hu => Or.inl hu, fun h => h⟩

lemma collectAux_inv (fetch : List Char → SmFetch)
    (parse : List Char → Option (String × List (List Char))) (maxUrls : Nat) :
    ∀ (candidates acc : List (List Char)),
      (∀ u ∈ (collectAux fetch parse maxUrls candidates acc).1,
        u ∈ acc ∨ is_news_url u = true) ∧
      (acc.Nodup → (collectAux fetch parse maxUrls candidates acc).1.Nodup) := by
  intro candidates
  induction candidates with
  | nil =>
    intro acc
    exact ⟨fun u hu => Or.inl hu, fun h => h⟩
  | cons smUrl rest ih =>
    intro acc
    by_cases hcap : (processCandidate fetch parse maxUrls acc smUrl).2.2 = true
    · have hred : collectAux fetch parse maxUrls (smUrl :: rest) acc =
          ((processCandidate fetch parse maxUrls acc smUrl).1,
            smUrl :: (processCandidate fetch parse maxUrls acc smUrl).2.1, true) := by
        simp only [collectAux]
        rw [if_pos hcap]
      rw [hred]
      exact processCandidate_inv fetch parse maxUrls acc smUrl
    · have hred : collectAux fetch parse maxUrls (smUrl :: rest) acc =
          ((collectAux fetch parse maxUrls rest
              (processCandidate fetch parse maxUrls acc smUrl).1).1,
            smUrl :: ((processCandidate fetch parse maxUrls acc smUrl).2.1 ++
              (collectAux fetch parse maxUrls rest
                (processCandidate fetch parse maxUrls acc smUrl).1).2.1),
            (collectAux fetch parse maxUrls rest
              (processCandidate fetch parse maxUrls acc smUrl).1).2.2) := by
        simp only [collectAux]
        rw [if_neg hcap]
      rw [hred]
      constructor
      · intro v hv
        rcases (ih _).1 v hv with h | h
        · rcases (processCandidate_inv fetch parse maxUrls acc smUrl).1 v h with h' | h'
          · exact Or.inl h'
          · exact Or.inr h'
        · exact Or.inr h
      · intro h
        exact (ih _).2 ((processCandidate_inv fetch parse maxUrls acc smUrl).2 h)

lemma collectAux_append (fetch : List Char → SmFetch)
    (parse : List Char → Option (String × List (List Char))) (maxUrls : Nat) :
    ∀ (c₁ c₂ acc : List (List Char)),
      (collectAux fetch parse maxUrls c₁ acc).2.2 = true →
      collectAux fetch parse maxUrls (c₁ ++ c₂) acc =
        collectAux fetch parse maxUrls c₁ acc := by
  intro c₁
  induction c₁ with
  | nil =>
    intro c₂ acc h
    simp [collectAux] at h
  | cons smUrl rest ih =>
    intro c₂ acc hcap
    by_cases hc : (processCandidate fetch parse maxUrls acc smUrl).2.2 = true
    · have hredl : collectAux fetch parse maxUrls (smUrl :: (rest ++ c₂)) acc =
          ((processCandidate fetch parse maxUrls acc smUrl).1,
            smUrl :: (processCandidate fetch parse maxUrls acc smUrl).2.1, true) := by
        simp only [collectAux]
        rw [if_pos hc]
      have hredr : collectAux fetch parse maxUrls (smUrl :: rest) acc =
          ((processCandidate fetch parse maxUrls acc smUrl).1,
            smUrl :: (processCandidate fetch parse maxUrls acc smUrl).2.1, true) := by
        simp only [collectAux]
        rw [if_pos hc]
      rw [List.cons_append, hredl, hredr]
    · have hredr : collectAux fetch parse maxUrls (smUrl :: rest) acc =
          ((collectAux fetch parse maxUrls rest
              (processCandidate fetch parse maxUrls acc smUrl).1).1,
            smUrl :: ((processCandidate fetch parse maxUrls acc smUrl).2.1 ++
              (collectAux fetch parse maxUrls rest
                (processCandidate fetch parse maxUrls acc smUrl).1).2.1),
            (collectAux fetch parse maxUrls rest
              (processCandidate fetch parse maxUrls acc smUrl).1).2.2) := by
        simp only [collectAux]
        rw [if_neg hc]
      have hredl : collectAux fetch parse maxUrls (smUrl :: (rest ++ c₂)) acc =
          ((collectAux fetch parse maxUrls (rest ++ c₂)
              (processCandidate fetch parse maxUrls acc smUrl).1).1,
            smUrl :: ((processCandidate fetch parse maxUrls acc smUrl).2.1 ++
              (collectAux fetch parse maxUrls (rest ++ c₂)
                (processCandidate fetch parse maxUrls acc smUrl).1).2.1),
            (collectAux fetch parse maxUrls (rest ++ c₂)
              (processCandidate fetch parse maxUrls acc smUrl).1).2.2) := by
        simp only [collectAux]
        rw [if_neg hc]
      rw [hredr] at hcap
      rw [List.cons_append, hredl, hredr, ih c₂ _ hcap]


/-- C7: `collect_news_urls_from_sitemap` returns a sorted, deduplicated list
of at most `maxUrls` URLs all satisfying the news-namespace predicate, and it
stops fetching further sitemap candidates the moment the accumulator reaches
`maxUrls` (a run that caps inside a candidate group is unchanged by any
further candidates, including their fetch trace). -/
theorem collect_news_urls_invariants :
    ∀ (fetch : List Char → SmFetch)
      (parse : List Char → Option (String × List (List Char)))
      (candidates : List (List Char)) (maxUrls : Nat), 1 ≤ maxUrls →
      (collect_news_urls_from_sitemap fetch parse candidates maxUrls).1.Sorted (· ≤ ·) ∧
      (collect_news_urls_from_sitemap fetch parse candidates maxUrls).1.Nodup ∧
      (collect_news_urls_from_sitemap fetch parse candidates maxUrls).1.length ≤ maxUrls ∧
      (∀ u ∈ (collect_news_urls_from_sitemap fetch parse candidates maxUrls).1,
        is_news_url u = true) ∧
      (∀ c₁ c₂, candidates = c₁ ++ c₂ →
        (collectAux fetch parse maxUrls c₁ []).2.2 = true →
        collect_news_urls_from_sitemap fetch parse candidates maxUrls =
          collect_news_urls_from_sitemap fetch parse c₁ maxUrls) := by
  intro fetch parse candidates maxUrls hmax
  have hres : (collect_news_urls_from_sitemap fetch parse candidates maxUrls).1 =
      (sortUrls (collectAux fetch parse maxUrls candidates []).1).take maxUrls := rfl
  have hperm : List.Perm (sortUrls (collectAux fetch parse maxUrls candidates []).1)
      (collectAux fetch parse maxUrls candidates []).1 :=
    List.perm_insertionSort _ _
  refine ⟨?_, ?_, ?_, ?_, ?_⟩
  · rw [hres]
    exact List.Pairwise.sublist (List.take_sublist _ _) (List.sorted_insertionSort _ _)
  · rw [hres]
    have hnodup : (collectAux fetch parse maxUrls candidates []).1.Nodup :=
      (collectAux_inv fetch parse maxUrls candidates []).2 List.nodup_nil
    exact List.Nodup.sublist (List.take_sublist _ _) (hperm.nodup_iff.mpr hnodup)
  · rw [hres, List.length_take]
    exact Nat.min_le_left _ _
  · intro u hu
    rw [hres] at hu
    have hu' : u ∈ (collectAux fetch parse maxUrls candidates []).1 :=
      hperm.mem_iff.mp ((List.take_sublist _ _).subset hu)
    rcases (collectAux_inv fetch parse maxUrls candidates []).1 u hu' with h | h
    · exact absurd h (List.not_mem_nil u)
    · exact h
  · intro c₁ c₂ hc hcap
    subst hc
    simp only [collect_news_urls_from_sitemap]
    rw [collectAux_append fetch parse maxUrls c₁ c₂ [] hcap]

/-- C7 witness: a urlset with five matching locs and `maxUrls = 2` — the
invariants hold, the run returns exactly two sorted locs, and the second
candidate is never fetched (the cap was reached inside the first). -/
theorem collect_news_urls_invariants_witness :
    ((collect_news_urls_from_sitemap exFetch2 exParse2 [idxUrl, cand2] 2).1.Sorted (· ≤ ·) ∧
      (collect_news_urls_from_sitemap exFetch2 exParse2 [idxUrl, cand2] 2).1.Nodup ∧
      (collect_news_urls_from_sitemap exFetch2 exParse2 [idxUrl, cand2] 2).1.length ≤ 2 ∧
      (∀ u ∈ (collect_news_urls_from_sitemap exFetch2 exParse2 [idxUrl, cand2] 2).1,
        is_news_url u = true) ∧
      (∀ c₁ c₂, ([idxUrl, cand2] : List (List Char)) = c₁ ++ c₂ →
        (collectAux exFetch2 exParse2 2 c₁ []).2.2 = true →
        collect_news_urls_from_sitemap exFetch2 exParse2 [idxUrl, cand2] 2 =
          collect_news_urls_from_sitemap exFetch2 exParse2 c₁ 2)) ∧
    collect_news_urls_from_sitemap exFetch2 exParse2 [idxUrl, cand2] 2 = ([nu1, nu2], [idxUrl]) ∧
    (collectAux exFetch2 exParse2 2 [idxUrl] []).2.2 = true :=
  ⟨collect_news_urls_invariants exFetch2 exParse2 [idxUrl, cand2] 2 (by omega),
   by decide, by decide⟩

/-- C8: a candidate (or a child of a sitemap index) whose fetch has a
non-success status, an empty body, or a non-XML-like body, or whose XML parse
fails, contributes zero URLs and never aborts the crawl: the run equals the
run on the remaining candidates, with the failed URL only appearing in the
fetch trace. -/
theorem sitemap_failure_swallowed :
    ∀ (fetch : List Char → SmFetch)
      (parse : List Char → Option (String × List (List Char)))
      (maxUrls : Nat) (c : List Char) (cs acc : List (List Char)),
      smBad (fetch c) = true ∨ parse (fetch c).text = none →
      collectAux fetch parse maxUrls (c :: cs) acc =
        ((collectAux fetch parse maxUrls cs acc).1,
          c :: (collectAux fetch parse maxUrls cs acc).2.1,
          (collectAux fetch parse maxUrls cs acc).2.2) ∧
      processChildren fetch parse maxUrls (c :: cs) acc =
        ((processChildren fetch parse maxUrls cs acc).1,
          c :: (processChildren fetch parse maxUrls cs acc).2.1,
          (processChildren fetch parse maxUrls cs acc).2.2) := by
  intro fetch parse maxUrls c cs acc hbad
  have hpc : processCandidate fetch parse maxUrls acc c = (acc, [], false) := by
    rcases hbad with h | h
    · simp [processCandidate, h]
    · by_cases hb : smBad (fetch c) = true
      · simp [processCandidate, hb]
      · simp [processCandidate, hb, h]
  have hpch : processChild fetch parse maxUrls acc c = (acc, false) := by
    rcases hbad with h | h
    · simp [processChild, h]
    · by_cases hb : smBad (fetch c) = true
      · simp [processChild, hb]
      · simp [processChild, hb, h]
  constructor
  · simp [collectAux, hpc]
  · simp [processChildren, hpch]

/-- C8 witness: the non-XML child of the index example is swallowed, and the
index with one valid urlset child (3 matching locs) and one non-XML child
yields exactly those 3 locs, sorted, with both children in the fetch trace. -/
theorem sitemap_failure_swallowed_witness :
    (collectAux exFetch exParse 500 (childB :: []) [] =
        ((collectAux exFetch exParse 500 [] []).1,
          childB :: (collectAux exFetch exParse 500 [] []).2.1,
          (collectAux exFetch exParse 500 [] []).2.2) ∧
      processChildren exFetch exParse 500 (childB :: []) [] =
        ((processChildren exFetch exParse 500 [] []).1,
          childB :: (processChildren exFetch exParse 500 [] []).2.1,
          (processChildren exFetch exParse 500 [] []).2.2)) ∧
    collect_news_urls_from_sitemap exFetch exParse [idxUrl] 500 =
      ([nu1, nu2, nu3], [idxUrl, childA, childB]) :=
  ⟨sitemap_failure_swallowed exFetch exParse 500 childB [] [] (Or.inl (by decide)),
   by decide⟩


lemma mem_dropWhile_of_mem {p : Char → Bool} {a : Char} :
    ∀ {l : List Char}, a ∈ l → p a = false → a ∈ l.dropWhile p := by
  intro l
  induction l with
  | nil => intro h _; exact absurd h (List.not_mem_nil a)
  | cons b t ih =>
    intro hmem hpa
    by_cases hb : p b = true
    · rw [List.dropWhile_cons_of_pos hb]
      rcases List.mem_cons.mp hmem with rfl | h
      · rw [hpa] at hb
        exact absurd hb (by simp)
      · exact ih h hpa
    · rw [List.dropWhile_cons_of_neg hb]
      exact hmem

lemma mem_pyStrip_of_mem {a : Char} {l : List Char} (hmem : a ∈ l)
    (hws : a.isWhitespace = false) : a ∈ pyStrip l := by
  unfold pyStrip
  rw [List.mem_reverse]
  apply mem_dropWhile_of_mem _ hws
  rw [List.mem_reverse]
  exact mem_dropWhile_of_mem hmem hws

lemma pyStrip_ne_nil {a : Char} {l : List Char} (hmem : a ∈ l)
    (hws : a.isWhitespace = false) : pyStrip l ≠ [] := by
  intro h
  have hin := mem_pyStrip_of_mem hmem hws
  rw [h] at hin
  exact absurd hin (List.not_mem_nil a)

lemma mem_wsCollapse_of_mem {a : Char} (hws : a.isWhitespace = false) :
    ∀ {l : List Char}, a ∈ l → a ∈ wsCollapse l := by
  intro l
  induction l with
  | nil => intro h; exact absurd h (List.not_mem_nil a)
  | cons c rest ih =>
    intro hmem
    by_cases hc : c.isWhitespace = true
    · have hrest : a ∈ rest := by
        rcases List.mem_cons.mp hmem with rfl | h
        · rw [hws] at hc
          exact absurd hc (by simp)
        · exact h
      have har : a ∈ wsCollapse rest := ih hrest
      rw [wsCollapse, if_pos hc]
      by_cases hh : (wsCollapse rest).head? = some ' '
      · rw [if_pos hh]
        exact har
      · rw [if_neg hh]
        exact List.mem_cons_of_mem _ har
    · rw [wsCollapse, if_neg hc]
      rcases List.mem_cons.mp hmem with rfl | h
      · exact List.mem_cons_self _ _
      · exact List.mem_cons_of_mem _ (ih h)

lemma mem_pyJoin_head {a : Char} {x : List Char} (sep : List Char)
    (xs : List (List Char)) (h : a ∈ x) : a ∈ pyJoin sep (x :: xs) := by
  cases xs with
  | nil => exact h
  | cons y ys =>
    show a ∈ x ++ sep ++ pyJoin sep (y :: ys)
    exact List.mem_append.mpr (Or.inl (List.mem_append.mpr (Or.inl h)))

/-- C10: for every `EventRecord`, `make_plan_text` is non-empty (it always
contains the title line, whose label supplies a non-whitespace character) and
`make_news_text` is non-empty (its lead sentence always ends with a period),
so the "both texts non-empty" guard of `build_dataset` always emits a
`DatasetPair`. In particular this holds for every record `parse_event`
retains. -/
theorem plan_news_nonempty :
    ∀ ev : EventRecord,
      make_plan_text ev ≠ [] ∧ make_news_text ev ≠ [] ∧ (build_pair ev).isSome = true := by
  intro ev
  have hplan : make_plan_text ev ≠ [] := by
    unfold make_plan_text
    refine @pyStrip_ne_nil 'С' _ ?_ (by decide)
    exact mem_pyJoin_head _ _ (List.mem_append.mpr (Or.inl (by decide)))
  have hnews : make_news_text ev ≠ [] := by
    unfold make_news_text
    refine @pyStrip_ne_nil '.' _ ?_ (by decide)
    refine mem_wsCollapse_of_mem (by decide) ?_
    refine mem_pyJoin_head _ _ ?_
    exact List.mem_append.mpr (Or.inr (by simp))
  refine ⟨hplan, hnews, ?_⟩
  unfold build_pair
  rw [if_pos ⟨fun h => hplan (List.isEmpty_iff.mp h), fun h => hnews (List.isEmpty_iff.mp h)⟩]
  rfl

end NewsGen